import Mathlib

/-!
# Verification of async-named-locker

A shallow embedding of the three synchronization primitives of the
repository `async-named-locker`, together with proofs of the spec
claims about them.

* `ObjectHolder` embeds `src/object_holder.rs`: a cell holding at most
  one value with a list of pending waiters (the `NotifyFuture` handles
  are modelled as abstract waiter ids of type `Nat`; resolving a waiter
  with a value is modelled as returning the pair `(waiter, value)` as a
  resolution event).
* `LockerManager` embeds `src/object_locker.rs`: a map from names to
  `LockerState` records.  The Rust `assert!(false)` panic in `unlock`
  is modelled by returning `none` (`unlock` returns an `Option`).
* `NamedState` embeds `src/named_state.rs`: a map from names to lists
  of hold ids.  The `HashMap` is modelled as a function into
  `Option (List Nat)` so that the presence of an entry (possibly with
  an empty list) is observable, exactly as for the Rust `HashMap`.

Suspension (`await`) is modelled by returning a `suspended` outcome
carrying the fresh waiter id; the later `set_complete` of that waiter
is the resolution event produced by `release`/`unlock`.
-/

namespace ObjectHolder

/-- Embeds `ObjectHolderState<T>`: `obj: Option<T>` together with
`waiter_list: Vec<NotifyFuture<T>>` (waiters modelled as ids). -/
structure State (T : Type) where
  obj : Option T
  waiter_list : List Nat
  deriving DecidableEq, Repr

/-- Embeds `ObjectGuard<T>`: the guard owns `obj: Option<T>`. -/
structure Guard (T : Type) where
  obj : Option T
  deriving DecidableEq, Repr

/-- Embeds `ObjectGuard::new(obj, holder)`: wraps the value in `Some`. -/
def Guard.new (v : T) : Guard T := ⟨some v⟩

/-- Embeds `ObjectHolder::new(obj)`: value resting, no waiters. -/
def new (v : T) : State T := ⟨some v, []⟩

/-- Outcome of `ObjectHolder::get`: either an immediately returned
guard, or suspension on a fresh waiter id. -/
inductive GetOutcome (T : Type) where
  | immediate (g : Guard T)
  | suspended (w : Nat)
  deriving DecidableEq, Repr

/-- Embeds `ObjectHolder::get`.  If a value rests in the cell it is
taken (`state.obj.take()`) and wrapped in a guard; otherwise a fresh
waiter (id `fresh`) is pushed onto the waiter list and the caller
suspends. -/
def get (s : State T) (fresh : Nat) : State T × GetOutcome T :=
  match s.obj with
  | some v => (⟨none, s.waiter_list⟩, .immediate (Guard.new v))
  | none => (⟨none, s.waiter_list ++ [fresh]⟩, .suspended fresh)

/-- Embeds the tail of `ObjectHolder::get` after `waiter.await`
resolves with `v`: the delivered value is wrapped in a guard
(`ObjectGuard::new(obj, self.clone())`). -/
def resume (v : T) : Guard T := Guard.new v

/-- Embeds `ObjectHolder::release(obj)`.  `Vec::pop` removes the LAST
element, so a pending waiter is taken from the tail of the list and
resolved with the value (second component is the resolution event);
with no waiters the value is put back to rest. -/
def release (s : State T) (v : T) : State T × Option (Nat × T) :=
  match s.waiter_list.getLast? with
  | some w => (⟨s.obj, s.waiter_list.dropLast⟩, some (w, v))
  | none => (⟨some v, s.waiter_list⟩, none)

/-- Embeds `Drop for ObjectGuard`: if the guard still owns a value it
is released into the holder; a taken guard does nothing. -/
def Guard.drop (g : Guard T) (s : State T) : State T × Option (Nat × T) :=
  match g.obj with
  | some v => release s v
  | none => (s, none)

/-- The operations a client can perform on the cell: an `acquire`
(`get`, with the fresh waiter id it would use) or a guard release
carrying the released value. -/
inductive Op (T : Type) where
  | get (fresh : Nat)
  | release (v : T)
  deriving DecidableEq, Repr

/-- State transition of one operation. -/
def step (s : State T) : Op T → State T
  | .get fresh => (get s fresh).1
  | .release v => (release s v).1

/-- Run a sequence of operations from the freshly created cell. -/
def run (v0 : T) (ops : List (Op T)) : State T :=
  ops.foldl step (new v0)

/-- Exactly one of the two alternatives of the claim: either a value rests
in the cell and the waiter list is empty, or no value rests and any
number of waiters queue; never both. -/
def restingXorWaiting (s : State T) : Prop :=
  ((s.obj.isSome = true ∧ s.waiter_list = []) ∧ ¬ s.obj = none) ∨
    (s.obj = none ∧ ¬ (s.obj.isSome = true ∧ s.waiter_list = []))

end ObjectHolder

namespace LockerManager

/-- Embeds `LockerState`: `is_locked: bool` and
`pending_list: Vec<NotifyFuture<()>>` (waiters modelled as ids). -/
structure LockerState where
  is_locked : Bool
  pending_list : List Nat
  deriving DecidableEq, Repr

/-- The `locker_map: HashMap<String, LockerState>`, as a function into
`Option` so entry presence is observable. -/
def LockerMap := String → Option LockerState

/-- `HashMap::insert`/`get_mut`-assignment: point update of the map. -/
def LockerMap.set (m : LockerMap) (k : String) (v : LockerState) : LockerMap :=
  fun x => if x = k then some v else m x

/-- Outcome of `LockerManager::lock`: return immediately or suspend on
the fresh waiter id pushed onto the pending list. -/
inductive LockOutcome where
  | immediate
  | suspended (w : Nat)
  deriving DecidableEq, Repr

/-- Embeds `LockerManager::lock`.  No entry: insert a locked entry
with an empty pending list and return.  Entry locked: push a fresh
waiter (id `fresh`) at the tail and suspend.  Entry unlocked: mark it
locked and return. -/
def lock (m : LockerMap) (locker_id : String) (fresh : Nat) :
    LockerMap × LockOutcome :=
  match m locker_id with
  | none => (m.set locker_id ⟨true, []⟩, .immediate)
  | some st =>
      if st.is_locked then
        (m.set locker_id ⟨st.is_locked, st.pending_list ++ [fresh]⟩,
          .suspended fresh)
      else
        (m.set locker_id ⟨true, st.pending_list⟩, .immediate)

/-- Embeds `LockerManager::unlock`.  The Rust code does
`assert!(false)` when the entry is missing; that panic is modelled by
the result `none`.  Otherwise: with a non-empty pending list,
`remove(0)` takes the HEAD waiter and resolves it (second component of
the pair is the resolved waiter); with an empty pending list the entry
is marked unlocked. -/
def unlock (m : LockerMap) (locker_id : String) :
    Option (LockerMap × Option Nat) :=
  match m locker_id with
  | some st =>
      match st.pending_list with
      | w :: rest => some (m.set locker_id ⟨st.is_locked, rest⟩, some w)
      | [] => some (m.set locker_id ⟨false, st.pending_list⟩, none)
  | none => none

end LockerManager

namespace NamedState

variable {N : Type} [DecidableEq N]

/-- Embeds the private `State<N>` of `named_state.rs`: the
`names: HashMap<N, Vec<u64>>` (as a function into `Option` so entry
presence is observable) and the `id_seq: u64` counter.  The claims do
not involve `u64` overflow, so ids are modelled as `Nat`. -/
structure State (N : Type) where
  names : N → Option (List Nat)
  id_seq : Nat

/-- Embeds `NamedStateHolder::new` up to the wall-clock seed: the map
is empty and `id_seq` starts at the seed. -/
def State.init (seed : Nat) : State N := ⟨fun _ => none, seed⟩

/-- Embeds `NamedStateHolder::new_state`: take the next id, increment
the counter, and push the id onto `names.entry(name).or_insert(vec![])`.
Returns the updated state and the id held by the returned guard. -/
def new_state (s : State N) (name : N) : State N × Nat :=
  let id := s.id_seq
  let l := (s.names name).getD []
  ({ names := fun n => if n = name then some (l ++ [id]) else s.names n,
     id_seq := s.id_seq + 1 }, id)

/-- Embeds `NamedStateHolder::has_state`: `true` iff the map has an
entry for the name with a non-empty list. -/
def has_state (s : State N) (name : N) : Bool :=
  match s.names name with
  | some l => decide (l.length > 0)
  | none => false

/-- Embeds `NamedStateHolder::release_state`:
`names.entry(name).or_insert(vec![]).retain(|&x| x != id)`. -/
def release_state (s : State N) (name : N) (id : Nat) : State N :=
  let l := (s.names name).getD []
  { s with
    names := fun n =>
      if n = name then some (l.filter (fun x => decide (x ≠ id)))
      else s.names n }

/-- A client operation on the registry: create a hold for a name
(`new_state`, which returns a guard), or drop the guard created by the
`k`-th hold of the trace (its `Drop` impl calls `release_state` with
the name and id of the guard). -/
inductive Op (N : Type) where
  | hold (name : N)
  | drop (k : Nat)
  deriving DecidableEq

/-- A configuration: the registry state together with the guards
created so far, indexed in creation order; a slot becomes `none` once
its guard has been dropped (a guard drops at most once). -/
structure Config (N : Type) where
  st : State N
  guards : List (Option (N × Nat))

/-- One step: `hold` runs `new_state` and records the new guard at the
end; `drop k` runs `release_state` with the name and id of guard `k` and
clears the slot (a no-op on an index that is out of range or already
dropped, which cannot occur for real guards). -/
def stepC (c : Config N) : Op N → Config N
  | .hold name =>
      let p := new_state c.st name
      { st := p.1, guards := c.guards ++ [some (name, p.2)] }
  | .drop k =>
      match c.guards.get? k with
      | some (some g) =>
          { st := release_state c.st g.1 g.2, guards := c.guards.set k none }
      | _ => c

/-- Run a trace from the fresh registry (seeded with `seed`). -/
def run (seed : Nat) (ops : List (Op N)) : Config N :=
  ops.foldl stepC ⟨State.init seed, []⟩

/-- The guards of the configuration that are still alive. -/
def activeGuards (gs : List (Option (N × Nat))) : List (N × Nat) :=
  gs.filterMap (fun x => x)

/-- The ids of all live guards, in creation order. -/
def idsOf (gs : List (Option (N × Nat))) : List Nat :=
  (activeGuards gs).map Prod.snd

/-- The ids of the live guards for one name, in creation order: the
outstanding holds for that name. -/
def outstandingOf (gs : List (Option (N × Nat))) (n : N) : List Nat :=
  (activeGuards gs).filterMap (fun g => if g.1 = n then some g.2 else none)

/-- The name an operation touches in a given configuration: a hold
touches its name; a drop touches the name of the guard it drops (none
if the slot is invalid). -/
def opName (c : Config N) : Op N → Option N
  | .hold name => some name
  | .drop k =>
      match c.guards.get? k with
      | some (some g) => some g.1
      | _ => none

/-- The registry invariant: the entry of each name (empty when absent)
lists exactly the outstanding hold ids for that name in creation
order, every live id is below the counter, and live ids are distinct. -/
def Inv (c : Config N) : Prop :=
  (∀ n, (c.st.names n).getD [] = outstandingOf c.guards n) ∧
    (∀ i ∈ idsOf c.guards, i < c.st.id_seq) ∧ (idsOf c.guards).Nodup

end NamedState

/-- `activeGuards` distributes over append. -/
theorem NamedState.activeGuards_append {N : Type}
    (gs1 gs2 : List (Option (N × Nat))) :
    NamedState.activeGuards (gs1 ++ gs2) =
      NamedState.activeGuards gs1 ++ NamedState.activeGuards gs2 :=
  List.filterMap_append gs1 gs2 _

/-- `outstandingOf` of an appended live guard: its id is
appended exactly when the names match. -/
theorem NamedState.outstandingOf_append_one {N : Type} [DecidableEq N]
    (gs : List (Option (N × Nat))) (nm : N) (i : Nat) (n : N) :
    NamedState.outstandingOf (gs ++ [some (nm, i)]) n =
      NamedState.outstandingOf gs n ++ (if nm = n then [i] else []) := by
  unfold NamedState.outstandingOf
  rw [NamedState.activeGuards_append, List.filterMap_append]
  by_cases h : nm = n <;>
    simp [NamedState.activeGuards, List.filterMap_cons, h]

/-- `idsOf` of an appended live guard. -/
theorem NamedState.idsOf_append_one {N : Type}
    (gs : List (Option (N × Nat))) (nm : N) (i : Nat) :
    NamedState.idsOf (gs ++ [some (nm, i)]) = NamedState.idsOf gs ++ [i] := by
  unfold NamedState.idsOf
  rw [NamedState.activeGuards_append]
  simp [NamedState.activeGuards, List.filterMap_cons]

/-- Every outstanding id for a name is among the live ids. -/
theorem NamedState.mem_ids_of_mem_outstanding {N : Type} [DecidableEq N]
    {gs : List (Option (N × Nat))} {n : N} {x : Nat}
    (h : x ∈ NamedState.outstandingOf gs n) : x ∈ NamedState.idsOf gs := by
  unfold NamedState.outstandingOf at h
  unfold NamedState.idsOf
  rcases List.mem_filterMap.mp h with ⟨g, hg, hx⟩
  by_cases hn : g.1 = n
  · simp only [hn, if_pos] at hx
    injection hx with hx
    exact List.mem_map.mpr ⟨g, hg, hx⟩
  · simp [hn] at hx

/-- Clearing a guard slot keeps the live guards a sublist of the
original live guards. -/
theorem NamedState.activeGuards_set_none_sublist {N : Type}
    (gs : List (Option (N × Nat))) (k : Nat) :
    (NamedState.activeGuards (gs.set k none)).Sublist
      (NamedState.activeGuards gs) := by
  induction gs generalizing k with
  | nil => simp [NamedState.activeGuards]
  | cons g rest ih =>
    cases k with
    | zero =>
      cases g with
      | none =>
        simp [NamedState.activeGuards, List.filterMap_cons]
      | some a =>
        simp only [List.set_cons_zero, NamedState.activeGuards,
          List.filterMap_cons]
        exact List.sublist_cons_self a _
    | succ k =>
      cases g with
      | none =>
        simpa [NamedState.activeGuards, List.filterMap_cons] using ih k
      | some a =>
        simpa [NamedState.activeGuards, List.filterMap_cons] using
          (ih k).cons₂ a

/-- `outstandingOf` ignores a dropped slot at the head. -/
theorem NamedState.outstandingOf_cons_none {N : Type} [DecidableEq N]
    (l : List (Option (N × Nat))) (n : N) :
    NamedState.outstandingOf (none :: l) n = NamedState.outstandingOf l n := by
  simp [NamedState.outstandingOf, NamedState.activeGuards, List.filterMap_cons]

/-- `outstandingOf` of a live guard at the head. -/
theorem NamedState.outstandingOf_cons_some {N : Type} [DecidableEq N]
    (a : N) (i : Nat) (l : List (Option (N × Nat))) (n : N) :
    NamedState.outstandingOf (some (a, i) :: l) n =
      if a = n then i :: NamedState.outstandingOf l n
      else NamedState.outstandingOf l n := by
  by_cases h : a = n <;>
    simp [NamedState.outstandingOf, NamedState.activeGuards,
      List.filterMap_cons, h]

/-- `idsOf` ignores a dropped slot at the head. -/
theorem NamedState.idsOf_cons_none {N : Type}
    (l : List (Option (N × Nat))) :
    NamedState.idsOf (none :: l) = NamedState.idsOf l := by
  simp [NamedState.idsOf, NamedState.activeGuards, List.filterMap_cons]

/-- `idsOf` of a live guard at the head. -/
theorem NamedState.idsOf_cons_some {N : Type}
    (a : N) (i : Nat) (l : List (Option (N × Nat))) :
    NamedState.idsOf (some (a, i) :: l) = i :: NamedState.idsOf l := by
  simp [NamedState.idsOf, NamedState.activeGuards, List.filterMap_cons]

/-- Clearing the slot of the live guard `(nm, i)` removes exactly the
id `i` from the outstanding list of `nm` (live ids being distinct) and
leaves the outstanding list of every other name unchanged. -/
theorem NamedState.outstandingOf_set_none {N : Type} [DecidableEq N]
    (gs : List (Option (N × Nat))) (k : Nat) (nm : N) (i : Nat)
    (hget : gs.get? k = some (some (nm, i)))
    (hnd : (NamedState.idsOf gs).Nodup) (n : N) :
    NamedState.outstandingOf (gs.set k none) n =
      if n = nm then
        (NamedState.outstandingOf gs n).filter (fun x => decide (x ≠ i))
      else NamedState.outstandingOf gs n := by
  induction gs generalizing k with
  | nil => cases hget
  | cons g rest ih =>
    cases k with
    | zero =>
      have hg : g = some (nm, i) := by simpa using hget
      subst hg
      rw [List.set_cons_zero]
      rw [NamedState.idsOf_cons_some] at hnd
      have hnotin : i ∉ NamedState.idsOf rest := (List.nodup_cons.mp hnd).1
      rw [NamedState.outstandingOf_cons_none]
      by_cases hn : n = nm
      · subst hn
        rw [if_pos rfl, NamedState.outstandingOf_cons_some, if_pos rfl,
          List.filter_cons]
        have hfilter :
            (NamedState.outstandingOf rest n).filter
              (fun x => decide (x ≠ i)) =
            NamedState.outstandingOf rest n := by
          rw [List.filter_eq_self]
          intro x hx
          have hxid : x ∈ NamedState.idsOf rest :=
            NamedState.mem_ids_of_mem_outstanding hx
          simp only [decide_eq_true_eq]
          exact fun he => hnotin (he ▸ hxid)
        rw [if_neg (by simp), hfilter]
      · rw [if_neg hn, NamedState.outstandingOf_cons_some,
          if_neg (fun h => hn h.symm)]
    | succ k =>
      have hget2 : rest.get? k = some (some (nm, i)) := by simpa using hget
      have hidrest : i ∈ NamedState.idsOf rest := by
        have hmem : some (nm, i) ∈ rest := List.get?_mem hget2
        have hact : (nm, i) ∈ NamedState.activeGuards rest :=
          List.mem_filterMap.mpr ⟨some (nm, i), hmem, rfl⟩
        exact List.mem_map.mpr ⟨(nm, i), hact, rfl⟩
      rw [List.set_cons_succ]
      cases g with
      | none =>
        rw [NamedState.idsOf_cons_none] at hnd
        rw [NamedState.outstandingOf_cons_none,
          NamedState.outstandingOf_cons_none]
        exact ih k hget2 hnd
      | some a =>
        obtain ⟨n1, i1⟩ := a
        rw [NamedState.idsOf_cons_some] at hnd
        obtain ⟨hni, hnd2⟩ := List.nodup_cons.mp hnd
        have hne : i1 ≠ i := fun he => hni (he ▸ hidrest)
        have ihk := ih k hget2 hnd2
        rw [NamedState.outstandingOf_cons_some,
          NamedState.outstandingOf_cons_some, ihk]
        by_cases hn1 : n1 = n
        · rw [if_pos hn1, if_pos hn1]
          by_cases hn : n = nm
          · rw [if_pos hn, if_pos hn, List.filter_cons]
            simp [hne]
          · rw [if_neg hn, if_neg hn]
        · rw [if_neg hn1, if_neg hn1]

/-- Shape of a `hold` step. -/
theorem NamedState.stepC_hold {N : Type} [DecidableEq N]
    (c : NamedState.Config N) (name : N) :
    NamedState.stepC c (NamedState.Op.hold name) =
      ⟨(NamedState.new_state c.st name).1,
        c.guards ++ [some (name, c.st.id_seq)]⟩ := rfl

/-- Shape of a `drop` step on a live guard slot. -/
theorem NamedState.stepC_drop_active {N : Type} [DecidableEq N]
    (c : NamedState.Config N) (k : Nat) (g : N × Nat)
    (hget : c.guards.get? k = some (some g)) :
    NamedState.stepC c (NamedState.Op.drop k) =
      ⟨NamedState.release_state c.st g.1 g.2, c.guards.set k none⟩ := by
  simp only [NamedState.stepC]
  rw [hget]

/-- A `drop` step on an out-of-range slot is a no-op. -/
theorem NamedState.stepC_drop_oob {N : Type} [DecidableEq N]
    (c : NamedState.Config N) (k : Nat)
    (hget : c.guards.get? k = none) :
    NamedState.stepC c (NamedState.Op.drop k) = c := by
  simp only [NamedState.stepC]
  rw [hget]

/-- A `drop` step on an already-dropped slot is a no-op. -/
theorem NamedState.stepC_drop_dead {N : Type} [DecidableEq N]
    (c : NamedState.Config N) (k : Nat)
    (hget : c.guards.get? k = some none) :
    NamedState.stepC c (NamedState.Op.drop k) = c := by
  simp only [NamedState.stepC]
  rw [hget]

/-- One registry step preserves the registry invariant. -/
theorem NamedState.inv_stepC {N : Type} [DecidableEq N]
    (c : NamedState.Config N) (op : NamedState.Op N)
    (h : NamedState.Inv c) : NamedState.Inv (NamedState.stepC c op) := by
  obtain ⟨h1, h2, h3⟩ := h
  cases op with
  | hold name =>
    rw [NamedState.stepC_hold]
    refine ⟨?_, ?_, ?_⟩
    · intro n
      rw [NamedState.outstandingOf_append_one]
      by_cases hn : n = name
      · subst hn
        simp [NamedState.new_state, h1 n]
      · simp only [NamedState.new_state, if_neg hn,
          if_neg (Ne.symm hn), List.append_nil]
        exact h1 n
    · intro i hi
      rw [NamedState.idsOf_append_one] at hi
      simp only [NamedState.new_state]
      rcases List.mem_append.mp hi with hi1 | hi2
      · exact Nat.lt_succ_of_lt (h2 i hi1)
      · simp at hi2
        simp [hi2, Nat.lt_succ_self]
    · rw [NamedState.idsOf_append_one]
      have hnotin : c.st.id_seq ∉ NamedState.idsOf c.guards :=
        fun hmem => Nat.lt_irrefl _ (h2 _ hmem)
      simp [List.nodup_append, h3, hnotin]
  | drop k =>
    cases hget : c.guards.get? k with
    | none => rw [NamedState.stepC_drop_oob c k hget]; exact ⟨h1, h2, h3⟩
    | some o =>
      cases o with
      | none => rw [NamedState.stepC_drop_dead c k hget]; exact ⟨h1, h2, h3⟩
      | some g =>
        obtain ⟨nm, i⟩ := g
        have hsubids : (NamedState.idsOf (c.guards.set k none)).Sublist
            (NamedState.idsOf c.guards) :=
          (NamedState.activeGuards_set_none_sublist c.guards k).map Prod.snd
        rw [NamedState.stepC_drop_active c k (nm, i) hget]
        refine ⟨?_, ?_, ?_⟩
        · intro n
          rw [NamedState.outstandingOf_set_none c.guards k nm i hget h3 n]
          by_cases hn : n = nm
          · subst hn
            simp [NamedState.release_state, h1 n]
          · simp only [NamedState.release_state, if_neg hn]
            exact h1 n
        · intro i2 hi2
          simpa [NamedState.release_state] using h2 i2 (hsubids.mem hi2)
        · exact h3.sublist hsubids

/-- The registry invariant holds along any fold of steps from an
invariant-satisfying configuration. -/
theorem NamedState.inv_foldl {N : Type} [DecidableEq N]
    (ops : List (NamedState.Op N)) :
    ∀ c : NamedState.Config N, NamedState.Inv c →
      NamedState.Inv (ops.foldl NamedState.stepC c) := by
  induction ops with
  | nil => exact fun c h => h
  | cons op rest ih => exact fun c h => ih _ (NamedState.inv_stepC c op h)

/-- The registry invariant holds in every reachable configuration. -/
theorem NamedState.inv_run {N : Type} [DecidableEq N] (seed : Nat)
    (ops : List (NamedState.Op N)) :
    NamedState.Inv (NamedState.run seed ops) := by
  refine NamedState.inv_foldl ops _ ⟨fun n => rfl, fun i hi => ?_, ?_⟩
  · exact absurd hi (List.not_mem_nil i)
  · exact List.nodup_nil

/-- A present map entry stays present across any single step. -/
theorem NamedState.isSome_stepC {N : Type} [DecidableEq N]
    (c : NamedState.Config N) (op : NamedState.Op N) (n : N)
    (h : (c.st.names n).isSome = true) :
    ((NamedState.stepC c op).st.names n).isSome = true := by
  cases op with
  | hold name =>
    rw [NamedState.stepC_hold]
    simp only [NamedState.new_state]
    by_cases hn : n = name <;> simp [hn, h]
  | drop k =>
    cases hget : c.guards.get? k with
    | none => rw [NamedState.stepC_drop_oob c k hget]; exact h
    | some o =>
      cases o with
      | none => rw [NamedState.stepC_drop_dead c k hget]; exact h
      | some g =>
        rw [NamedState.stepC_drop_active c k g hget]
        simp only [NamedState.release_state]
        by_cases hn : n = g.1 <;> simp [hn, h]

/-- A present map entry stays present across any fold of steps. -/
theorem NamedState.isSome_foldl {N : Type} [DecidableEq N]
    (ops : List (NamedState.Op N)) (n : N) :
    ∀ c : NamedState.Config N, (c.st.names n).isSome = true →
      ((ops.foldl NamedState.stepC c).st.names n).isSome = true := by
  induction ops with
  | nil => exact fun c h => h
  | cons op rest ih =>
    exact fun c h => ih _ (NamedState.isSome_stepC c op n h)

/-- Once a trace holds a name, the map entry for that name exists in
the resulting configuration. -/
theorem NamedState.hold_isSome {N : Type} [DecidableEq N]
    (ops : List (NamedState.Op N)) (n : N) :
    NamedState.Op.hold n ∈ ops →
      ∀ c : NamedState.Config N,
        ((ops.foldl NamedState.stepC c).st.names n).isSome = true := by
  induction ops with
  | nil => intro h; cases h
  | cons op rest ih =>
    intro h c
    rcases List.mem_cons.mp h with h1 | h2
    · rw [← h1, List.foldl_cons]
      apply NamedState.isSome_foldl
      rw [NamedState.stepC_hold]
      simp [NamedState.new_state]
    · exact ih h2 _

/-- Running an extended trace is one step after running the trace. -/
theorem NamedState.run_append_one {N : Type} [DecidableEq N] (seed : Nat)
    (ops : List (NamedState.Op N)) (op : NamedState.Op N) :
    NamedState.run seed (ops ++ [op]) =
      NamedState.stepC (NamedState.run seed ops) op := by
  unfold NamedState.run
  rw [List.foldl_append]
  rfl

/-- `has_state` only reads the map entry of the name itself. -/
theorem NamedState.has_state_congr {N : Type} [DecidableEq N]
    {s1 s2 : NamedState.State N} {n : N}
    (h : s1.names n = s2.names n) :
    NamedState.has_state s1 n = NamedState.has_state s2 n := by
  unfold NamedState.has_state
  rw [h]

/-- One step of the cell preserves the invariant that a resting value
coexists only with an empty waiter list. -/
theorem ObjectHolder.inv_step {T : Type} (s : ObjectHolder.State T)
    (op : ObjectHolder.Op T)
    (h : s.obj.isSome = true → s.waiter_list = []) :
    (ObjectHolder.step s op).obj.isSome = true →
      (ObjectHolder.step s op).waiter_list = [] := by
  cases op with
  | get fresh =>
    cases hobj : s.obj with
    | some v => simp [ObjectHolder.step, ObjectHolder.get, hobj]
    | none => simp [ObjectHolder.step, ObjectHolder.get, hobj]
  | release v =>
    cases hlast : s.waiter_list.getLast? with
    | some w =>
      simp only [ObjectHolder.step, ObjectHolder.release, hlast]
      intro hsome
      rw [h hsome] at hlast
      cases hlast
    | none =>
      simp [ObjectHolder.step, ObjectHolder.release, hlast,
        List.getLast?_eq_none_iff.mp hlast]

/-- Any number of steps preserves the cell invariant. -/
theorem ObjectHolder.cell_inv_foldl {T : Type} (ops : List (ObjectHolder.Op T)) :
    ∀ s : ObjectHolder.State T, (s.obj.isSome = true → s.waiter_list = []) →
      ((ops.foldl ObjectHolder.step s).obj.isSome = true →
        (ops.foldl ObjectHolder.step s).waiter_list = []) := by
  induction ops with
  | nil => intro s h; simpa using h
  | cons op rest ih =>
    intro s h
    exact ih _ (ObjectHolder.inv_step s op h)

/-- Claim C1: releasing a guard of the ExclusiveCell (`ObjectHolder`)
with a non-empty waiter queue pops the last-enqueued waiter (the tail
of the queue, LIFO) and delivers the value directly to it without
touching the resting slot; with an empty waiter queue the value is
placed back into the resting slot. -/
theorem objectHolder_release_pops_last_waiter {T : Type}
    (s : ObjectHolder.State T) (v : T) :
    (∀ l w, s.waiter_list = l ++ [w] →
      ObjectHolder.release s v = (⟨s.obj, l⟩, some (w, v))) ∧
    (s.waiter_list = [] →
      ObjectHolder.release s v = (⟨some v, []⟩, none)) := by
  constructor
  · intro l w h
    simp [ObjectHolder.release, h, List.getLast?_concat, List.dropLast_concat]
  · intro h
    simp [ObjectHolder.release, h]

/-- Witness for C1 at a concrete state: two waiters 4 and 7 queued,
releasing value 5 resolves waiter 7 (the tail) and leaves the slot
empty. -/
theorem objectHolder_release_pops_last_waiter_witness :
    ObjectHolder.release (ObjectHolder.State.mk (none : Option Nat) [4, 7]) 5 =
      (ObjectHolder.State.mk none [4], some (7, 5)) :=
  (objectHolder_release_pops_last_waiter _ 5).1 [4] 7 rfl

/-- Claim C4: `get` (acquire) on a state with a resting value removes
the value and returns it wrapped in a guard without suspending; on a
state with no resting value it appends a fresh waiter at the tail of
the queue and suspends, and on resolution with a value the guard
wraps that delivered value. -/
theorem objectHolder_get_cases {T : Type}
    (s : ObjectHolder.State T) (fresh : Nat) :
    (∀ v, s.obj = some v →
      ObjectHolder.get s fresh =
        (⟨none, s.waiter_list⟩, .immediate (ObjectHolder.Guard.new v))) ∧
    (s.obj = none →
      (ObjectHolder.get s fresh =
        (⟨none, s.waiter_list ++ [fresh]⟩, .suspended fresh)) ∧
      ∀ v : T, (ObjectHolder.resume v).obj = some v) := by
  constructor
  · intro v h
    simp [ObjectHolder.get, h]
  · intro h
    exact ⟨by simp [ObjectHolder.get, h], fun v => rfl⟩

/-- Witness for C4 at a concrete state: acquiring from an empty cell
suspends on the fresh waiter 3, which is appended to the queue. -/
theorem objectHolder_get_cases_witness :
    ObjectHolder.get (ObjectHolder.State.mk (none : Option Nat) []) 3 =
      (ObjectHolder.State.mk none [3], .suspended 3) :=
  ((objectHolder_get_cases _ 3).2 rfl).1

/-- Claim C10: `ObjectGuard::new` builds a guard from an arbitrary
value, and dropping such a guard on a state with a resting value and
no waiters replaces the resting value with the value of the guard; the
previously resting value is discarded (the result no longer holds
it). -/
theorem objectGuard_public_new_replaces_resting {T : Type} (u v : T) :
    (ObjectHolder.Guard.drop (ObjectHolder.Guard.new v)
        (⟨some u, []⟩ : ObjectHolder.State T) = (⟨some v, []⟩, none)) ∧
    (u ≠ v →
      (ObjectHolder.Guard.drop (ObjectHolder.Guard.new v)
        (⟨some u, []⟩ : ObjectHolder.State T)).1.obj ≠ some u) := by
  refine ⟨rfl, fun hne => ?_⟩
  simp [ObjectHolder.Guard.drop, ObjectHolder.Guard.new, ObjectHolder.release]
  exact fun h => hne h.symm

/-- Witness for C10 at concrete values: dropping a guard built from 2
over a cell resting 9 leaves 2 resting and 9 gone. -/
theorem objectGuard_public_new_replaces_resting_witness :
    (ObjectHolder.Guard.drop (ObjectHolder.Guard.new 2)
        (⟨some 9, []⟩ : ObjectHolder.State Nat) = (⟨some 2, []⟩, none)) ∧
    (ObjectHolder.Guard.drop (ObjectHolder.Guard.new 2)
        (⟨some 9, []⟩ : ObjectHolder.State Nat)).1.obj ≠ some 9 :=
  ⟨(objectGuard_public_new_replaces_resting 9 2).1,
    (objectGuard_public_new_replaces_resting 9 2).2 (by decide)⟩

/-- Claim C3: `lock(name)` has three cases.  No entry: create a locked
entry with an empty queue, no suspension.  Entry unlocked: mark it
locked, no suspension (queue unchanged).  Entry locked: append a
fresh waiter at the tail of the queue and suspend on it. -/
theorem lockerManager_lock_three_cases (m : LockerManager.LockerMap)
    (locker_id : String) (fresh : Nat) :
    (m locker_id = none →
      LockerManager.lock m locker_id fresh =
        (m.set locker_id ⟨true, []⟩, .immediate)) ∧
    (∀ st, m locker_id = some st → st.is_locked = false →
      LockerManager.lock m locker_id fresh =
        (m.set locker_id ⟨true, st.pending_list⟩, .immediate)) ∧
    (∀ st, m locker_id = some st → st.is_locked = true →
      LockerManager.lock m locker_id fresh =
        (m.set locker_id ⟨true, st.pending_list ++ [fresh]⟩,
          .suspended fresh)) := by
  refine ⟨fun h => ?_, fun st h hu => ?_, fun st h hl => ?_⟩
  · simp [LockerManager.lock, h]
  · simp [LockerManager.lock, h, hu]
  · simp [LockerManager.lock, h, hl]

/-- Witness for C3 at a concrete map: locking a fresh name "a" on the
empty map creates a locked entry and returns immediately. -/
theorem lockerManager_lock_three_cases_witness :
    LockerManager.lock (fun _ => none) "a" 0 =
      (LockerManager.LockerMap.set (fun _ => none) "a" ⟨true, []⟩,
        .immediate) :=
  (lockerManager_lock_three_cases _ "a" 0).1 rfl

/-- Claim C2: `unlock(name)` on an existing entry with a non-empty
pending queue removes the head waiter (FIFO) and resolves it, leaving
`is_locked` untouched (in particular it stays `true` when it was
`true`); with an empty pending queue it sets `is_locked` to
`false`. -/
theorem lockerManager_unlock_fifo_handoff (m : LockerManager.LockerMap)
    (locker_id : String) :
    (∀ st w rest, m locker_id = some st → st.pending_list = w :: rest →
      LockerManager.unlock m locker_id =
        some (m.set locker_id ⟨st.is_locked, rest⟩, some w)) ∧
    (∀ st w rest, m locker_id = some st → st.pending_list = w :: rest →
      st.is_locked = true →
      LockerManager.unlock m locker_id =
        some (m.set locker_id ⟨true, rest⟩, some w)) ∧
    (∀ st, m locker_id = some st → st.pending_list = [] →
      LockerManager.unlock m locker_id =
        some (m.set locker_id ⟨false, []⟩, none)) := by
  refine ⟨fun st w rest h hp => ?_, fun st w rest h hp hl => ?_,
    fun st h hp => ?_⟩
  · simp [LockerManager.unlock, h, hp]
  · simp [LockerManager.unlock, h, hp, hl]
  · simp [LockerManager.unlock, h, hp]

/-- Witness for C2 at a concrete map: "a" is locked with pending
waiters 7 then 8; unlock resolves 7 (the head) and keeps the entry
locked. -/
theorem lockerManager_unlock_fifo_handoff_witness :
    LockerManager.unlock
        (LockerManager.LockerMap.set (fun _ => none) "a" ⟨true, [7, 8]⟩)
        "a" =
      some ((LockerManager.LockerMap.set (fun _ => none) "a"
          ⟨true, [7, 8]⟩).set "a" ⟨true, [8]⟩, some 7) :=
  (lockerManager_unlock_fifo_handoff _ "a").2.1 ⟨true, [7, 8]⟩ 7 [8]
    rfl rfl rfl

/-- Claim C5: `unlock` for a name with no entry hits `assert!(false)`,
a fatal panic, modelled as the `none` result: it is neither a silent
no-op nor a recoverable value. -/
theorem lockerManager_unlock_missing_entry_panics
    (m : LockerManager.LockerMap) (locker_id : String) :
    m locker_id = none → LockerManager.unlock m locker_id = none := by
  intro h
  simp [LockerManager.unlock, h]

/-- Witness for C5 at a concrete map: unlocking "a" on the empty map
panics (result `none`). -/
theorem lockerManager_unlock_missing_entry_panics_witness :
    LockerManager.unlock (fun _ => none) "a" = none :=
  lockerManager_unlock_missing_entry_panics _ "a" rfl

/-- Claim C7: `has_state(name)` (is_held) is `true` iff the map has
an entry for the name with a non-empty id list; for a name with no
entry it is `false` (and the operation is a total function). -/
theorem namedState_has_state_iff_nonempty_entry {N : Type} [DecidableEq N]
    (s : NamedState.State N) (n : N) :
    (NamedState.has_state s n = true ↔
      ∃ l, s.names n = some l ∧ l ≠ []) ∧
    (s.names n = none → NamedState.has_state s n = false) := by
  constructor
  · cases h : s.names n with
    | none => simp [NamedState.has_state, h]
    | some l => simp [NamedState.has_state, h, List.length_pos]
  · intro h
    simp [NamedState.has_state, h]

/-- Witness for C7 at a concrete registry: the fresh registry has no
entry for "b", so `has_state` is `false` there. -/
theorem namedState_has_state_iff_nonempty_entry_witness :
    NamedState.has_state (NamedState.State.init 0 : NamedState.State String)
      "b" = false :=
  (namedState_has_state_iff_nonempty_entry _ "b").2 rfl

/-- Claim C6: in every state of the cell reachable from `new v0` by
any sequence of acquires and guard releases, exactly one alternative
holds: the value rests in the slot with an empty waiter list, or the
slot is empty with zero or more waiters queued; slot and waiter list
are never both populated. -/
theorem objectHolder_resting_xor_waiting {T : Type} (v0 : T)
    (ops : List (ObjectHolder.Op T)) :
    ObjectHolder.restingXorWaiting (ObjectHolder.run v0 ops) := by
  have h : (ObjectHolder.run v0 ops).obj.isSome = true →
      (ObjectHolder.run v0 ops).waiter_list = [] :=
    ObjectHolder.cell_inv_foldl ops (ObjectHolder.new v0) (fun _ => rfl)
  unfold ObjectHolder.restingXorWaiting
  cases hobj : (ObjectHolder.run v0 ops).obj with
  | some v =>
    left
    exact ⟨⟨by simp [hobj], h (by simp [hobj])⟩, by simp [hobj]⟩
  | none =>
    right
    exact ⟨rfl, by simp [hobj]⟩

/-- Claim C8: along any trace from a fresh registry, `has_state n`
(is_held) is `true` exactly when some hold for `n` is outstanding (so
it is `false` before any hold for `n` is created and `false` again
once every hold for `n` has been released, each release removing
exactly its own id), and a step whose touched name is not `n` leaves
`has_state n` unchanged. -/
theorem namedState_held_iff_outstanding_and_frame {N : Type}
    [DecidableEq N] (seed : Nat) (ops : List (NamedState.Op N)) (n : N) :
    (NamedState.has_state (NamedState.run seed ops).st n = true ↔
      NamedState.outstandingOf (NamedState.run seed ops).guards n ≠ []) ∧
    (∀ op, NamedState.opName (NamedState.run seed ops) op ≠ some n →
      NamedState.has_state (NamedState.run seed (ops ++ [op])).st n =
        NamedState.has_state (NamedState.run seed ops).st n) := by
  constructor
  · have h1 := (NamedState.inv_run seed ops).1 n
    unfold NamedState.has_state
    cases hm : (NamedState.run seed ops).st.names n with
    | none =>
      rw [hm] at h1
      simp only [Option.getD_none] at h1
      simp [← h1]
    | some l =>
      rw [hm] at h1
      simp only [Option.getD_some] at h1
      rw [← h1]
      simp [List.length_pos]
  · intro op hop
    rw [NamedState.run_append_one]
    apply NamedState.has_state_congr
    cases op with
    | hold name =>
      have hne : n ≠ name := by
        simp only [NamedState.opName, ne_eq, Option.some_inj] at hop
        exact fun h => hop h.symm
      rw [NamedState.stepC_hold]
      simp [NamedState.new_state, hne]
    | drop k =>
      cases hget : (NamedState.run seed ops).guards.get? k with
      | none => rw [NamedState.stepC_drop_oob _ k hget]
      | some o =>
        cases o with
        | none => rw [NamedState.stepC_drop_dead _ k hget]
        | some g =>
          have hne : n ≠ g.1 := by
            simp only [NamedState.opName, hget, ne_eq,
              Option.some_inj] at hop
            exact fun h => hop h.symm
          rw [NamedState.stepC_drop_active _ k g hget]
          simp [NamedState.release_state, hne]

/-- Witness for C8 at a concrete trace: after one hold of "a",
`has_state "a"` agrees with the outstanding holds for "a", and a
further hold of "b" leaves `has_state "a"` unchanged. -/
theorem namedState_held_iff_outstanding_and_frame_witness :
    (NamedState.has_state
        (NamedState.run 0 [NamedState.Op.hold "a"]).st "a" = true ↔
      NamedState.outstandingOf
        (NamedState.run 0 [NamedState.Op.hold "a"]).guards "a" ≠ []) ∧
    NamedState.has_state
        (NamedState.run 0
          ([NamedState.Op.hold "a"] ++ [NamedState.Op.hold "b"])).st "a" =
      NamedState.has_state
        (NamedState.run 0 [NamedState.Op.hold "a"]).st "a" :=
  ⟨(namedState_held_iff_outstanding_and_frame 0
      [NamedState.Op.hold "a"] "a").1,
    (namedState_held_iff_outstanding_and_frame 0
      [NamedState.Op.hold "a"] "a").2 (NamedState.Op.hold "b")
      (by decide)⟩

/-- Claim C9: registry entries are never removed.  Releasing a hold
for a name with no entry inserts an empty entry (with `has_state`
still `false`); a present entry stays present across every further
step; and once a trace that held a name has no outstanding hold for
it, the entry is still in the map, with the empty id list and
`has_state` `false`. -/
theorem namedState_entries_never_removed {N : Type} [DecidableEq N]
    (seed : Nat) (ops : List (NamedState.Op N)) (n : N) :
    (∀ (s : NamedState.State N) (i : Nat), s.names n = none →
      (NamedState.release_state s n i).names n = some [] ∧
      NamedState.has_state (NamedState.release_state s n i) n = false) ∧
    (∀ op, ((NamedState.run seed ops).st.names n).isSome = true →
      ((NamedState.run seed (ops ++ [op])).st.names n).isSome = true) ∧
    (NamedState.Op.hold n ∈ ops →
      NamedState.outstandingOf (NamedState.run seed ops).guards n = [] →
      (NamedState.run seed ops).st.names n = some [] ∧
      NamedState.has_state (NamedState.run seed ops).st n = false) := by
  refine ⟨fun s i h => ?_, fun op h => ?_, fun hmem hout => ?_⟩
  · constructor
    · simp [NamedState.release_state, h]
    · simp [NamedState.has_state, NamedState.release_state, h]
  · rw [NamedState.run_append_one]
    exact NamedState.isSome_stepC _ op n h
  · have hsome : ((NamedState.run seed ops).st.names n).isSome = true :=
      NamedState.hold_isSome ops n hmem ⟨NamedState.State.init seed, []⟩
    have h1 := (NamedState.inv_run seed ops).1 n
    cases hm : (NamedState.run seed ops).st.names n with
    | none => rw [hm] at hsome; cases hsome
    | some l =>
      rw [hm] at h1
      simp only [Option.getD_some] at h1
      rw [hout] at h1
      subst h1
      exact ⟨rfl, by simp [NamedState.has_state, hm]⟩

/-- Witness for C9 at concrete inputs: releasing id 5 for "a" on the
fresh registry inserts the empty entry, and after holding "a" and
dropping that hold the entry for "a" is still present and empty. -/
theorem namedState_entries_never_removed_witness :
    ((NamedState.release_state
        (NamedState.State.init 0 : NamedState.State String) "a" 5).names
          "a" = some [] ∧
      NamedState.has_state
        (NamedState.release_state
          (NamedState.State.init 0 : NamedState.State String) "a" 5)
          "a" = false) ∧
    (NamedState.run 0
        [NamedState.Op.hold "a", NamedState.Op.drop 0] :
        NamedState.Config String).st.names "a" = some [] :=
  ⟨(namedState_entries_never_removed 0 [] "a").1 _ 5 rfl,
    ((namedState_entries_never_removed 0
        [NamedState.Op.hold "a", NamedState.Op.drop 0] "a").2.2
      (by decide) (by decide)).1⟩
